import Mathlib

/-!
Shallow embedding of the e-commerce customer-support chatbot
(`src/chatbot/` of the repository) in Lean 4.

Python floats are modelled as exact rationals (`ℚ`); the float literals
`2.0`, `0.5`, `0.1`, `0.3` of the source become `2`, `mkRat 1 2`,
`mkRat 1 10`, `mkRat 3 10`.  Rational arithmetic is expressed through
`mkRat` (`qAdd`, `qDivTen`, …) so that every definition evaluates by
kernel reduction; these agree with the field operations on `ℚ`.

Python strings are modelled as Lean `String`s, with the character-level
operations (`lower`, `upper`, `in`, `split`, `replace`) re-implemented
over `String.data`, matching CPython semantics on ASCII text (all text
handled by the chatbot's data files is ASCII).
-/

namespace Chatbot

/-! ## Rational helpers (exact models of the float operations used) -/

/-- Exact rational addition, written through `mkRat` (value-equal to `a + b`). -/
def qAdd (a b : ℚ) : ℚ := mkRat (a.num * b.den + b.num * a.den) (a.den * b.den)

/-- Exact division by ten (value-equal to `a / 10`); models the source's `score / 10`. -/
def qDivTen (a : ℚ) : ℚ := mkRat a.num (a.den * 10)

/-- Python `min(a, b)` on numbers: `a` when `a <= b`, else `b`. -/
def pyMin (a b : ℚ) : ℚ := if a ≤ b then a else b

/-- Step of Python `max` over an iterable of numbers: keep the current value
unless the next one is strictly greater. -/
def pyMaxStep (acc x : ℚ) : ℚ := if x > acc then x else acc

/-! ## Character / string primitives (CPython semantics on ASCII) -/

/-- Python `str.lower()` (ASCII). -/
def lowerStr (s : String) : String := ⟨s.data.map Char.toLower⟩

/-- Python `str.upper()` (ASCII). -/
def upperStr (s : String) : String := ⟨s.data.map Char.toUpper⟩

/-- Python `str.isspace` character class used by `str.split()` (ASCII whitespace). -/
def isWsChar (c : Char) : Bool :=
  c == ' ' || c == '\t' || c == '\n' || c == '\x0d' || c == '\x0b' || c == '\x0c'

/-- The character class `[A-Z0-9]` under `re.IGNORECASE`: ASCII letters and digits. -/
def isAlnumChar (c : Char) : Bool := c.isAlpha || c.isDigit

/-- Does `pat` occur (exactly) at the head of `s`? -/
def startsWithL : List Char → List Char → Bool
  | [], _ => true
  | _ :: _, [] => false
  | p :: ps, c :: cs => p == c && startsWithL ps cs

/-- Python `pat in hay` on strings: substring containment. -/
def hasSub : List Char → List Char → Bool
  | hay, pat =>
    if startsWithL pat hay then true
    else match hay with
      | [] => false
      | _ :: t => hasSub t pat

/-- Python `needle in hay` for `String`s. -/
def strIn (needle hay : String) : Bool := hasSub hay.data needle.data

/-- Helper of `pyWords`: split a character list on whitespace runs,
accumulating the current (reversed) word. -/
def splitWsAux : List Char → List Char → List (List Char)
  | [], acc => if acc.isEmpty then [] else [acc.reverse]
  | c :: cs, acc =>
    if isWsChar c then
      if acc.isEmpty then splitWsAux cs [] else acc.reverse :: splitWsAux cs []
    else splitWsAux cs (c :: acc)

/-- Python `str.split()` with no separator: maximal non-whitespace runs,
no empty tokens. -/
def pyWords (s : String) : List String := (splitWsAux s.data []).map String.mk

/-- Helper of `pyReplace`, fuelled so that it is structurally recursive;
the fuel is the haystack length, which suffices for a non-empty pattern. -/
def replaceAllAux (pat rep : List Char) : Nat → List Char → List Char
  | 0, s => s
  | _ + 1, [] => []
  | fuel + 1, c :: cs =>
    if !pat.isEmpty && startsWithL pat (c :: cs) then
      rep ++ replaceAllAux pat rep fuel ((c :: cs).drop pat.length)
    else c :: replaceAllAux pat rep fuel cs

/-- Python `s.replace(pat, rep)` for a non-empty pattern: replace all
non-overlapping occurrences left to right. -/
def pyReplace (s pat rep : String) : String :=
  ⟨replaceAllAux pat.data rep.data s.data.length s.data⟩

/-! ## IntentClassifier (`src/chatbot/intent_classifier.py`)

An intent definition is a tag, its pattern phrases and its response
templates, as loaded from `data/intents.json`.  Per the data model the
tags are unique; the Python `intent_scores` dict keyed by tag then
coincides with the list of per-intent scores in definition order. -/

structure Intent where
  tag : String
  patterns : List String
  responses : List String
deriving DecidableEq

/-- Score contributed by one pattern phrase against the lower-cased input
`il`: `2.0` when the whole (lower-cased) phrase is a substring of the
input, else `0.5` per pattern word occurring in the input
(`IntentClassifier.classify`, inner loop). -/
def patScore (il : String) (pat : String) : ℚ :=
  let pl := lowerStr pat
  if strIn pl il then 2
  else mkRat ((pyWords pl).countP fun w => strIn w il) 2

/-- Total score of one intent: sum of its pattern scores
(`intent_scores[intent_name] += ...`). -/
def intentScore (il : String) : List String → ℚ
  | [] => 0
  | p :: ps => qAdd (patScore il p) (intentScore il ps)

/-- The association list `intent_scores` of `classify`, in intent
definition order. -/
def scoresOf (intents : List Intent) (input : String) : List (String × ℚ) :=
  intents.map fun it => (it.tag, intentScore (lowerStr input) it.patterns)

/-- Python `max(intent_scores, key=intent_scores.get)`: first key attaining
the maximum value, folded left over the iteration order. -/
def pickBest (s : String × ℚ) (rest : List (String × ℚ)) : String × ℚ :=
  rest.foldl (fun b q => if q.2 > b.2 then q else b) s

/-- Python `max(intent_scores.values())`. -/
def maxVal (s : String × ℚ) (rest : List (String × ℚ)) : ℚ :=
  rest.foldl (fun acc q => pyMaxStep acc q.2) s.2

/-- `IntentClassifier.classify`: score every intent, fall back to
`('greeting', 0.3)` when there are no intents or the maximum score is `0`,
otherwise return the first best intent with confidence
`min(score / 10, 1.0)`. -/
def classify (intents : List Intent) (input : String) : String × ℚ :=
  match scoresOf intents input with
  | [] => ("greeting", mkRat 3 10)
  | s :: rest =>
    if maxVal s rest = 0 then ("greeting", mkRat 3 10)
    else
      let best := pickBest s rest
      (best.1, pyMin (qDivTen best.2) 1)

/-! ## Retriever (`src/chatbot/ir_based_qa.py`)

`IRBasedQA.retrieve` computes one cosine similarity per corpus document
and post-processes them with `np.argsort(similarities)[::-1][:top_k]`
followed by the `> 0.1` filter.  The TF-IDF/cosine computation is an
external library call; the embedding takes the similarity vector as a
parameter and models everything the repository's code does with it.
`np.argsort` is modelled as the stable ascending argsort (ties by index),
which is what numpy produces on the corpus sizes at hand. -/

/-- Similarity of document `i` (`similarities[idx]`). -/
def simsD (sims : List ℚ) (i : ℕ) : ℚ := sims.getD i 0

/-- Ascending argsort order: strictly smaller similarity first, ties by
original index. -/
def rAsc (sims : List ℚ) (i j : ℕ) : Prop :=
  simsD sims i < simsD sims j ∨ (simsD sims i = simsD sims j ∧ i ≤ j)

instance rAscDecidable (sims : List ℚ) : DecidableRel (rAsc sims) := fun i j => by
  unfold rAsc; infer_instance

instance rAscTotal (sims : List ℚ) : IsTotal ℕ (rAsc sims) := by
  constructor
  intro a b
  unfold rAsc
  rcases lt_trichotomy (simsD sims a) (simsD sims b) with h | h | h
  · exact Or.inl (Or.inl h)
  · rcases Nat.le_total a b with hab | hab
    · exact Or.inl (Or.inr ⟨h, hab⟩)
    · exact Or.inr (Or.inr ⟨h.symm, hab⟩)
  · exact Or.inr (Or.inl h)

instance rAscTrans (sims : List ℚ) : IsTrans ℕ (rAsc sims) := by
  constructor
  intro a b c hab hbc
  unfold rAsc at hab hbc ⊢
  rcases hab with h1 | ⟨h1, h1n⟩ <;> rcases hbc with h2 | ⟨h2, h2n⟩
  · exact Or.inl (h1.trans h2)
  · exact Or.inl (h2 ▸ h1)
  · exact Or.inl (h1 ▸ h2)
  · exact Or.inr ⟨h1.trans h2, h1n.trans h2n⟩

/-- `np.argsort(similarities)`: indices sorted ascending by similarity,
ties in index order. -/
def argsortAsc (sims : List ℚ) : List ℕ :=
  List.insertionSort (rAsc sims) (List.range sims.length)

/-- `np.argsort(similarities)[::-1][:top_k]`. -/
def topIdxs (sims : List ℚ) (k : ℕ) : List ℕ := ((argsortAsc sims).reverse).take k

/-- The indices that survive the `similarities[idx] > 0.1` filter, in
result order. -/
def retrieveIdxs (sims : List ℚ) (k : ℕ) : List ℕ :=
  (topIdxs sims k).filter fun i => decide (mkRat 1 10 < simsD sims i)

/-- One retrieval result (`{'question': ..., 'answer': ..., 'score': ...}`). -/
structure Hit where
  question : String
  answer : String
  score : ℚ
deriving DecidableEq

/-- `IRBasedQA.retrieve` over a corpus of (question, answer) pairs and the
similarity vector of the query. -/
def retrieve (corpus : List (String × String)) (sims : List ℚ) (k : ℕ) : List Hit :=
  (retrieveIdxs sims k).map fun i =>
    ⟨(corpus.getD i ("", "")).1, (corpus.getD i ("", "")).2, simsD sims i⟩

/-! ## OrderTracker (`src/chatbot/order_tracker.py`) -/

structure Order where
  oid : String
  status : String
  delivery : String
deriving DecidableEq

/-- `OrderTracker.get_order`: first order whose id matches case-insensitively. -/
def getOrder : List Order → String → Option Order
  | [], _ => none
  | o :: rest, oid =>
    if upperStr o.oid = upperStr oid then some o else getOrder rest oid

/-- `OrderTracker.cancel_order`: walk the orders; on a case-insensitive id
match with status `pending` or `processing`, set the status to `cancelled`
and return `True`; a matching but ineligible order is skipped (the loop
continues); return `False` when the loop ends. -/
def cancelOrder : List Order → String → Bool × List Order
  | [], _ => (false, [])
  | o :: rest, oid =>
    if upperStr o.oid = upperStr oid then
      if o.status = "pending" ∨ o.status = "processing" then
        (true, { o with status := "cancelled" } :: rest)
      else
        let r := cancelOrder rest oid
        (r.1, o :: r.2)
    else
      let r := cancelOrder rest oid
      (r.1, o :: r.2)

/-! ## Order-id extraction (`DialogueSystem._extract_order_id`)

`re.search(r'order\s*(?:id)?:?\s*([A-Z0-9]+)', text, re.IGNORECASE)`,
compiled to a deterministic matcher.  `re.search` semantics: leftmost
starting position wins; at a given position the greedy `\s*` runs are
safe to take maximally (whitespace overlaps neither `i`, `:` nor an
alphanumeric), and the single genuine backtracking point is the optional
`(?:id)?`: it is tried first, and if no alphanumeric capture follows, the
engine retries without it (the `:?` alternatives in between can never
rescue a failed capture, since `:` is neither whitespace nor
alphanumeric). -/

/-- Case-insensitive literal match at the head of the text (`pat` is given
lower-case). -/
def ciStarts : List Char → List Char → Bool
  | [], _ => true
  | _ :: _, [] => false
  | p :: ps, c :: cs => p == c.toLower && ciStarts ps cs

/-- Consume the optional `:`. -/
def tryColon : List Char → List Char
  | ':' :: rest => rest
  | cs => cs

/-- Greedy capture `([A-Z0-9]+)` (case-insensitive): the maximal leading
alphanumeric run, failing if it is empty. -/
def capAlnum (cs : List Char) : Option (List Char) :=
  match cs.takeWhile isAlnumChar with
  | [] => none
  | r => some r

/-- Try the whole pattern at this position. -/
def tryHere (cs : List Char) : Option (List Char) :=
  if ciStarts ['o', 'r', 'd', 'e', 'r'] cs then
    let s1 := (cs.drop 5).dropWhile isWsChar
    let withoutId := capAlnum ((tryColon s1).dropWhile isWsChar)
    if ciStarts ['i', 'd'] s1 then
      match capAlnum ((tryColon (s1.drop 2)).dropWhile isWsChar) with
      | some r => some r
      | none => withoutId
    else withoutId
  else none

/-- Scan for the leftmost matching position. -/
def searchId : List Char → Option (List Char)
  | [] => none
  | c :: rest =>
    match tryHere (c :: rest) with
    | some r => some r
    | none => searchId rest

/-- `DialogueSystem._extract_order_id`: the captured group (original
casing) or `None`. -/
def extractOrderId (s : String) : Option String := (searchId s.data).map String.mk

/-! ## LRUCache (`src/chatbot/performance_tuning.py`)

The `OrderedDict` is an association list, front = least recently used.
`datetime.now()` is a natural-number clock passed to each operation.
Python exceptions (`KeyError` from `del` on a missing key,
`StopIteration` from `next` on an exhausted iterator) surface as
`Except.error`. -/

/-- First-match association-list lookup (Python dict access). -/
def alookup {V : Type} : List (String × V) → String → Option V
  | [], _ => none
  | p :: rest, k => if p.1 = k then some p.2 else alookup rest k

/-- Remove the entry of key `k` (Python `del d[k]` on the association list). -/
def aerase {V : Type} : List (String × V) → String → List (String × V)
  | [], _ => []
  | p :: rest, k => if p.1 = k then aerase rest k else p :: aerase rest k

structure CacheState (V : Type) where
  cache : List (String × V)
  timestamps : List (String × Nat)
  maxSize : Nat
  ttl : Nat

/-- `LRUCache._is_expired` at clock `now`: missing timestamp counts as
expired; otherwise the age must exceed the TTL strictly. -/
def isExpired {V : Type} (st : CacheState V) (now : Nat) (k : String) : Bool :=
  match alookup st.timestamps k with
  | none => true
  | some t => decide (st.ttl < now - t)

/-- `LRUCache.get`: on a miss (absent or expired) delete a stale entry and
return `None`; on a hit move the key to the most-recently-used end and
return the stored value.  The stale-deletion path does
`del self.timestamps[key]` unconditionally, which raises `KeyError` when
the timestamp is missing. -/
def lruGet {V : Type} (st : CacheState V) (now : Nat) (k : String) :
    Except String (Option V × CacheState V) :=
  match alookup st.cache k with
  | none => .ok (none, st)
  | some v =>
    if isExpired st now k then
      if (alookup st.timestamps k).isSome then
        .ok (none, { st with cache := aerase st.cache k, timestamps := aerase st.timestamps k })
      else .error "KeyError"
    else
      .ok (some v, { st with cache := aerase st.cache k ++ [(k, v)] })

/-- `LRUCache.put`: delete an existing key; otherwise when at capacity pop
the least-recently-used entry, then read `removed_key = next(iter(self.cache))`
(the key that is now oldest — after the pop!) and delete its timestamp if
present; finally insert the pair with the current timestamp.
`next(iter(...))` on an emptied dict raises `StopIteration`, and
`popitem` on an empty dict raises `KeyError`. -/
def lruPut {V : Type} (st : CacheState V) (now : Nat) (k : String) (v : V) :
    Except String (CacheState V) :=
  if (alookup st.cache k).isSome then
    .ok { st with
          cache := aerase st.cache k ++ [(k, v)],
          timestamps := aerase st.timestamps k ++ [(k, now)] }
  else if st.maxSize ≤ st.cache.length then
    match st.cache with
    | [] => .error "KeyError"
    | _ :: rest =>
      match rest with
      | [] => .error "StopIteration"
      | (rk, _) :: _ =>
        .ok { st with
              cache := rest ++ [(k, v)],
              timestamps :=
                aerase (if (alookup st.timestamps rk).isSome then aerase st.timestamps rk
                        else st.timestamps) k ++ [(k, now)] }
  else
    .ok { st with
          cache := st.cache ++ [(k, v)],
          timestamps := aerase st.timestamps k ++ [(k, now)] }

/-- The `cache_result` decorator's wrapper, for a function returning an
optional value (`none` models a Python `None` result).  The Boolean
records whether the wrapped function was executed on this call.
`cached_value is not None` collapses a stored `None` and a cache miss:
that collapse is `Option.join` on the modelled `get` result. -/
def cacheWrapper {A α : Type} (mkKey : A → String) (f : A → Option α)
    (st : CacheState (Option α)) (now : Nat) (x : A) :
    Except String (Option α × CacheState (Option α) × Bool) :=
  let key := mkKey x
  match lruGet st now key with
  | .error e => .error e
  | .ok (r, st1) =>
    match r.join with
    | some a => .ok (some a, st1, false)
    | none =>
      let result := f x
      match lruPut st1 now key result with
      | .error e => .error e
      | .ok st2 => .ok (result, st2, true)

/-! ## ResponseGenerator and DialogueSystem
(`src/chatbot/response_generator.py`, `src/chatbot/dialogue_system.py`)

`random.choice` is modelled by an oracle `pick` choosing an index into
the template list (reduced modulo its length); `random.choice` on an
empty list raises, modelled as `none`.  The TF-IDF vectorizer inside
`IRBasedQA` is modelled by the oracle `simsOf` giving the similarity
vector of a query, and `datetime.now().isoformat()` by an opaque
timestamp string. -/

/-- `ResponseGenerator._build_response_map` followed by a dict lookup:
last assignment per tag wins. -/
def respLookup (intents : List Intent) (tag : String) : Option (List String) :=
  alookup (intents.map fun it => (it.tag, it.responses)).reverse tag

/-- `ResponseGenerator.generate`. -/
def generate (intents : List Intent) (pick : List String → ℕ) (tag : String)
    (entities : List (String × String)) : Option String :=
  match respLookup intents tag with
  | none => some "I\x27m sorry, I didn\x27t understand that. Can you please rephrase?"
  | some rs =>
    match rs with
    | [] => none
    | _ :: _ =>
      let r := rs.getD (pick rs % rs.length) ""
      some (entities.foldl (fun acc p => pyReplace acc ("\x7b" ++ p.1 ++ "\x7d") p.2) r)

/-- One entry of `conversation_history`.  A user entry carries no intent
or confidence; the assistant entry records both. -/
structure Turn where
  timestamp : String
  kind : String
  text : String
  intent : Option String
  confidence : Option ℚ

/-- Static collaborators and oracles of one `DialogueSystem`. -/
structure DSConfig where
  intents : List Intent
  corpus : List (String × String)
  simsOf : String → List ℚ
  pick : List String → ℕ
  time : String

/-- Mutable state of one `DialogueSystem`. -/
structure DSState where
  history : List Turn
  context : List (String × String)
  orders : List Order

/-- The final `else` branch of `_handle_intent`: top-1 retrieval, falling
back to the `default` template when no hit clears the threshold. -/
def fallbackResp (cfg : DSConfig) (input : String) : Option String :=
  match retrieve cfg.corpus (cfg.simsOf input) 1 with
  | [] => generate cfg.intents cfg.pick "default" []
  | h :: _ => some h.answer

/-- `DialogueSystem._handle_track_order`. -/
def handleTrackOrder (st : DSState) (input : String) : String :=
  match extractOrderId input with
  | some oid =>
    match getOrder st.orders oid with
    | some o =>
      "Your order " ++ oid ++ " is " ++ o.status ++ ". Expected delivery: " ++ o.delivery
    | none => "I couldn\x27t find your order. Please provide your order ID."
  | none => "I couldn\x27t find your order. Please provide your order ID."

/-- `DialogueSystem._handle_cancel_item`. -/
def handleCancelItem (st : DSState) (input : String) : String × DSState :=
  match extractOrderId input with
  | some oid =>
    match getOrder st.orders oid with
    | some o =>
      if o.status = "pending" ∨ o.status = "processing" then
        ("Order " ++ oid ++ " has been cancelled successfully.",
         { st with orders := (cancelOrder st.orders oid).2 })
      else ("Unable to cancel this order. It may have already shipped.", st)
    | none => ("Unable to cancel this order. It may have already shipped.", st)
  | none => ("Unable to cancel this order. It may have already shipped.", st)

/-- `DialogueSystem._handle_intent`: route on the intent tag.  Only the
literal tag `greeting` reaches the template generator with its own tag;
every other non-transactional tag goes to the retriever, with the
`default` template as last resort. -/
def handleIntent (cfg : DSConfig) (st : DSState) (tag input : String) :
    Option (String × DSState) :=
  if tag = "track_order" then some (handleTrackOrder st input, st)
  else if tag = "cancel_item" then some (handleCancelItem st input)
  else if tag = "greeting" then
    (generate cfg.intents cfg.pick "greeting" []).map fun r => (r, st)
  else
    (fallbackResp cfg input).map fun r => (r, st)

/-- `DialogueSystem.process_input`: append the user turn, classify, handle,
append the assistant turn carrying intent and confidence, return the
response. -/
def processInput (cfg : DSConfig) (st : DSState) (input : String) :
    Option (String × DSState) :=
  let st1 := { st with history := st.history ++ [⟨cfg.time, "user", input, none, none⟩] }
  let ic := classify cfg.intents input
  match handleIntent cfg st1 ic.1 input with
  | none => none
  | some (resp, st2) =>
    some (resp,
      { st2 with
        history := st2.history ++ [⟨cfg.time, "assistant", resp, some ic.1, some ic.2⟩] })

/-! ## Named views used in the theorem statements -/

/-- Score of the intent at position `m` (out of range: `0`). -/
def scoreAt (intents : List Intent) (input : String) (m : ℕ) : ℚ :=
  ((scoresOf intents input).getD m ("", 0)).2

/-- Tag of the intent at position `m` (out of range: `""`). -/
def tagAt (intents : List Intent) (m : ℕ) : String :=
  (intents.getD m ⟨"", [], []⟩).tag

/-- A concrete system: one intent `refund` with a registered template set
`["R1"]`, a one-document corpus answering `A1`, and a similarity oracle
that scores that document `0.5` on every query. -/
def cfgC2 : DSConfig :=
  ⟨[⟨"refund", ["refund"], ["R1"]⟩], [("q", "A1")], fun _ => [mkRat 1 2], fun _ => 0, "t"⟩

/-- A concrete system with only the `greeting` intent registered. -/
def cfgC9 : DSConfig :=
  ⟨[⟨"greeting", ["hello"], ["Hi there!"]⟩], [("q", "a")], fun _ => [0], fun _ => 0, "t"⟩

/-! ## Association-list lemmas -/

theorem alookup_mem {V : Type} {l : List (String × V)} {k : String} {v : V}
    (h : alookup l k = some v) : (k, v) ∈ l := by
  induction l with
  | nil => simp [alookup] at h
  | cons p rest ih =>
    rw [alookup] at h
    by_cases hp : p.1 = k
    · rw [if_pos hp] at h
      have hv : p.2 = v := by injection h
      have hpk : p = (k, v) := by cases p; simp_all
      rw [← hpk]
      exact List.mem_cons_self _ _
    · rw [if_neg hp] at h
      exact List.mem_cons_of_mem _ (ih h)

theorem alookup_aerase_self {V : Type} (l : List (String × V)) (k : String) :
    alookup (aerase l k) k = none := by
  induction l with
  | nil => rfl
  | cons p rest ih =>
    rw [aerase]
    by_cases hp : p.1 = k
    · rw [if_pos hp]; exact ih
    · rw [if_neg hp, alookup, if_neg hp]; exact ih

theorem aerase_length_le {V : Type} (l : List (String × V)) (k : String) :
    (aerase l k).length ≤ l.length := by
  induction l with
  | nil => simp [aerase]
  | cons p rest ih =>
    rw [aerase]
    by_cases hp : p.1 = k
    · rw [if_pos hp]
      exact ih.trans (Nat.le_succ _)
    · rw [if_neg hp]
      simpa using ih

theorem aerase_length_lt {V : Type} {l : List (String × V)} {k : String} {v : V}
    (h : alookup l k = some v) : (aerase l k).length < l.length := by
  induction l with
  | nil => simp [alookup] at h
  | cons p rest ih =>
    rw [alookup] at h
    rw [aerase]
    by_cases hp : p.1 = k
    · rw [if_pos hp]
      exact Nat.lt_succ_of_le (aerase_length_le rest k)
    · rw [if_neg hp] at h
      rw [if_neg hp]
      simpa using ih h

theorem alookup_append_left {V : Type} {l1 : List (String × V)} {k : String} {v : V}
    (h : alookup l1 k = some v) (l2 : List (String × V)) :
    alookup (l1 ++ l2) k = some v := by
  induction l1 with
  | nil => simp [alookup] at h
  | cons p rest ih =>
    rw [alookup] at h
    rw [List.cons_append, alookup]
    by_cases hp : p.1 = k
    · rw [if_pos hp] at h ⊢; exact h
    · rw [if_neg hp] at h ⊢; exact ih h

theorem alookup_append_of_none {V : Type} {l1 : List (String × V)} {k : String}
    (h : alookup l1 k = none) (l2 : List (String × V)) :
    alookup (l1 ++ l2) k = alookup l2 k := by
  induction l1 with
  | nil => rfl
  | cons p rest ih =>
    rw [alookup] at h
    rw [List.cons_append, alookup]
    by_cases hp : p.1 = k
    · rw [if_pos hp] at h; exact absurd h (by simp)
    · rw [if_neg hp] at h ⊢; exact ih h

/-! ## Generic `getD` lemmas -/

theorem getD_map_general {α β : Type} (f : α → β) (l : List α) (d : α) (m : ℕ) :
    (l.map f).getD m (f d) = f (l.getD m d) := by
  induction l generalizing m with
  | nil => cases m <;> simp
  | cons a rest ih => cases m <;> simp [ih]

theorem getD_mem_of_lt {α : Type} {l : List α} {m : ℕ} (d : α) (h : m < l.length) :
    l.getD m d ∈ l := by
  induction l generalizing m with
  | nil => simp at h
  | cons a rest ih =>
    cases m with
    | zero => simp
    | succ m' =>
      rw [List.getD_cons_succ]
      exact List.mem_cons_of_mem _ (ih (by simpa using h))

/-! ## Retriever ordering lemmas -/

theorem retrieveIdxs_pairwise (sims : List ℚ) (k : ℕ) :
    (retrieveIdxs sims k).Pairwise fun i j => rAsc sims j i := by
  have h1 : (argsortAsc sims).Pairwise (rAsc sims) :=
    List.sorted_insertionSort (rAsc sims) (List.range sims.length)
  have h2 : ((argsortAsc sims).reverse).Pairwise fun i j => rAsc sims j i :=
    List.pairwise_reverse.mpr h1
  have h3 : (topIdxs sims k).Pairwise fun i j => rAsc sims j i :=
    h2.sublist (List.take_sublist k _)
  exact h3.sublist (List.filter_sublist _)

theorem retrieveIdxs_nodup (sims : List ℚ) (k : ℕ) : (retrieveIdxs sims k).Nodup := by
  have h1 : (argsortAsc sims).Nodup :=
    (List.perm_insertionSort (rAsc sims) (List.range sims.length)).nodup_iff.mpr
      (List.nodup_range _)
  have h2 : ((argsortAsc sims).reverse).Nodup := List.nodup_reverse.mpr h1
  have h3 : (topIdxs sims k).Nodup := h2.sublist (List.take_sublist k _)
  exact h3.sublist (List.filter_sublist _)

theorem retrieveIdxs_lt_length {sims : List ℚ} {k i : ℕ} (h : i ∈ retrieveIdxs sims k) :
    i < sims.length := by
  have h1 : i ∈ topIdxs sims k := List.mem_of_mem_filter h
  have h2 : i ∈ (argsortAsc sims).reverse := List.mem_of_mem_take h1
  have h3 : i ∈ argsortAsc sims := List.mem_reverse.mp h2
  have h4 : i ∈ List.range sims.length := by
    rw [argsortAsc, List.mem_insertionSort] at h3
    exact h3
  exact List.mem_range.mp h4

theorem retrieveIdxs_gt_threshold {sims : List ℚ} {k i : ℕ} (h : i ∈ retrieveIdxs sims k) :
    mkRat 1 10 < simsD sims i := by
  have := List.of_mem_filter h
  simpa using this

/-- C3 counterexample: two corpus documents with the same similarity `0.5`
are returned with the later-inserted document first — the reverse of the
corpus insertion order that the claim states. -/
theorem retrieve_tie_counterexample :
    simsD [mkRat 1 2, mkRat 1 2] 0 = simsD [mkRat 1 2, mkRat 1 2] 1 ∧
    retrieve [("first question", "a0"), ("second question", "a1")]
        [mkRat 1 2, mkRat 1 2] 2 =
      [⟨"second question", "a1", mkRat 1 2⟩, ⟨"first question", "a0", mkRat 1 2⟩] :=
  ⟨rfl, rfl⟩

/-- C3 (amended): whenever two documents tie in cosine similarity, the
hits list them in reverse corpus insertion order: the index sequence
underlying `retrieve` is pairwise ordered so that, on equal similarity,
the later position holds the strictly smaller corpus index.  (The stable
ascending argsort puts tied indices in insertion order, and the `[::-1]`
reversal inverts it.) -/
theorem retrieve_ties_reverse_corpus_order (sims : List ℚ) (k : ℕ) :
    (retrieveIdxs sims k).Pairwise
      fun i j => simsD sims i = simsD sims j → j < i := by
  have hp := (retrieveIdxs_pairwise sims k).and (retrieveIdxs_nodup sims k)
  refine hp.imp ?_
  intro i j hij heq
  rcases hij with ⟨hr, hne⟩
  rcases hr with hlt | ⟨_, hle⟩
  · rw [heq] at hlt
    exact absurd hlt (lt_irrefl _)
  · exact lt_of_le_of_ne hle (Ne.symm hne)

/-- C7: every returned hit has similarity strictly above `0.1`, the hit
scores are non-increasing, and at most `top_k` hits are returned. -/
theorem retrieve_threshold_sorted_bounded (corpus : List (String × String))
    (sims : List ℚ) (k : ℕ) :
    ((retrieve corpus sims k).map Hit.score).all (fun q => decide (mkRat 1 10 < q)) = true ∧
    ((retrieve corpus sims k).map Hit.score).Pairwise (fun a b => b ≤ a) ∧
    (retrieve corpus sims k).length ≤ k := by
  have hmap : (retrieve corpus sims k).map Hit.score =
      (retrieveIdxs sims k).map (simsD sims) := by
    rw [retrieve, List.map_map]
    rfl
  refine ⟨?_, ?_, ?_⟩
  · rw [hmap, List.all_eq_true]
    intro q hq
    rcases List.mem_map.mp hq with ⟨i, hi, rfl⟩
    exact decide_eq_true (retrieveIdxs_gt_threshold hi)
  · rw [hmap, List.pairwise_map]
    refine (retrieveIdxs_pairwise sims k).imp ?_
    intro i j hr
    rcases hr with hlt | ⟨heq, _⟩
    · exact le_of_lt hlt
    · exact le_of_eq heq
  · rw [retrieve, List.length_map, retrieveIdxs]
    calc ((topIdxs sims k).filter _).length ≤ (topIdxs sims k).length :=
          List.length_filter_le _ _
      _ ≤ k := by
          rw [topIdxs, List.length_take]
          exact min_le_left _ _

/-- C1: the specified LRU behaviour fails on the code.  With capacity 2 and
fresh timestamps, putting `k1`, `k2`, `k3` pops `k1` from the store but then
deletes the timestamp of `k2` (the code reads `next(iter(self.cache))`
after the pop, so `removed_key` is the surviving oldest key, not the
evicted one).  `k2` is still stored with value `2`, yet `get("k2")` treats
it as expired and raises `KeyError` from `del self.timestamps[key]`,
instead of returning the stored value as the claim requires. -/
theorem lru_eviction_deletes_wrong_timestamp :
    (do
      let s1 ← lruPut (⟨[], [], 2, 3600⟩ : CacheState ℕ) 0 "k1" 1
      let s2 ← lruPut s1 0 "k2" 2
      lruPut s2 0 "k3" 3) =
      Except.ok (⟨[("k2", 2), ("k3", 3)], [("k1", 0), ("k3", 0)], 2, 3600⟩ : CacheState ℕ) ∧
    (do
      let s1 ← lruPut (⟨[], [], 2, 3600⟩ : CacheState ℕ) 0 "k1" 1
      let s2 ← lruPut s1 0 "k2" 2
      let s3 ← lruPut s2 0 "k3" 3
      lruGet s3 0 "k2") = Except.error "KeyError" :=
  ⟨rfl, rfl⟩

/-- C8: the order-id extraction matches the source regex on its stated
examples: `ORD001` (original casing preserved), `abc123` after the
optional `id` and colon, none when the word `order` is absent, and a
case-insensitive match of the literal word. -/
theorem extract_order_id_spec :
    extractOrderId "Track my order ORD001" = some "ORD001" ∧
    extractOrderId "order id: abc123" = some "abc123" ∧
    extractOrderId "hello" = none ∧
    extractOrderId "ORDER: 42" = some "42" :=
  ⟨rfl, rfl, rfl, rfl⟩

/-! ## Order cancellation lemmas -/

theorem cancel_nomatch {oid : String} :
    ∀ {l : List Order}, (∀ o ∈ l, upperStr o.oid ≠ upperStr oid) →
      cancelOrder l oid = (false, l) := by
  intro l
  induction l with
  | nil => intro _; rfl
  | cons o rest ih =>
    intro h
    have ho : upperStr o.oid ≠ upperStr oid := h o (List.mem_cons_self _ _)
    have hrest := ih fun x hx => h x (List.mem_cons_of_mem _ hx)
    rw [cancelOrder, if_neg ho, hrest]

theorem cancel_append_of_nomatch {oid : String} :
    ∀ (pre : List Order), (∀ o ∈ pre, upperStr o.oid ≠ upperStr oid) →
      ∀ (rest : List Order),
        cancelOrder (pre ++ rest) oid =
          ((cancelOrder rest oid).1, pre ++ (cancelOrder rest oid).2) := by
  intro pre
  induction pre with
  | nil => intro _ rest; simp
  | cons o pre ih =>
    intro h rest
    have ho : upperStr o.oid ≠ upperStr oid := h o (List.mem_cons_self _ _)
    have hpre := ih (fun x hx => h x (List.mem_cons_of_mem _ hx)) rest
    rw [List.cons_append, cancelOrder, if_neg ho, hpre]
    rfl

/-- C4: for the unique order matching the requested id (case-insensitively),
cancellation on a `pending` or `processing` order returns `True` and sets
exactly that order's status to `cancelled`; on any other status it returns
`False` and leaves the order list entirely unchanged. -/
theorem cancel_order_spec (pre post : List Order) (o : Order) (oid : String)
    (hpre : ∀ x ∈ pre, upperStr x.oid ≠ upperStr oid)
    (hpost : ∀ x ∈ post, upperStr x.oid ≠ upperStr oid)
    (hmatch : upperStr o.oid = upperStr oid) :
    ((o.status = "pending" ∨ o.status = "processing") →
      cancelOrder (pre ++ o :: post) oid =
        (true, pre ++ { o with status := "cancelled" } :: post)) ∧
    (o.status ≠ "pending" → o.status ≠ "processing" →
      cancelOrder (pre ++ o :: post) oid = (false, pre ++ o :: post)) := by
  rw [cancel_append_of_nomatch pre hpre (o :: post)]
  constructor
  · intro hel
    have h1 : cancelOrder (o :: post) oid =
        (true, { o with status := "cancelled" } :: post) := by
      rw [cancelOrder, if_pos hmatch, if_pos hel]
    rw [h1]
  · intro h1 h2
    have hel : ¬(o.status = "pending" ∨ o.status = "processing") := by
      intro hc
      rcases hc with hc | hc
      · exact h1 hc
      · exact h2 hc
    have h3 : cancelOrder (o :: post) oid =
        ((cancelOrder post oid).1, o :: (cancelOrder post oid).2) := by
      rw [cancelOrder, if_pos hmatch, if_neg hel]
    rw [h3, cancel_nomatch hpost]

/-- Witness for C4: a pending order is cancelled in place; a shipped order
is rejected with the store untouched. -/
theorem cancel_order_spec_witness :
    cancelOrder [⟨"ORD1", "pending", "d1"⟩, ⟨"ORD2", "shipped", "d2"⟩] "ord1" =
      (true, [⟨"ORD1", "cancelled", "d1"⟩, ⟨"ORD2", "shipped", "d2"⟩]) ∧
    cancelOrder [⟨"ORD1", "pending", "d1"⟩, ⟨"ORD2", "shipped", "d2"⟩] "ord2" =
      (false, [⟨"ORD1", "pending", "d1"⟩, ⟨"ORD2", "shipped", "d2"⟩]) := by
  constructor
  · exact (cancel_order_spec [] [⟨"ORD2", "shipped", "d2"⟩] ⟨"ORD1", "pending", "d1"⟩
      "ord1" (by decide) (by decide) (by decide)).1 (Or.inl rfl)
  · exact (cancel_order_spec [⟨"ORD1", "pending", "d1"⟩] [] ⟨"ORD2", "shipped", "d2"⟩
      "ord2" (by decide) (by decide) (by decide)).2 (by decide) (by decide)

/-! ## Classifier scoring lemmas -/

theorem patScore_zero {il p : String} (h1 : strIn (lowerStr p) il = false)
    (h2 : ∀ w ∈ pyWords (lowerStr p), strIn w il = false) : patScore il p = 0 := by
  rw [patScore]
  simp only [h1, Bool.false_eq_true, if_false]
  have hc : (pyWords (lowerStr p)).countP (fun w => strIn w il) = 0 :=
    List.countP_eq_zero.mpr fun w hw => by simp [h2 w hw]
  rw [hc]
  rfl

theorem intentScore_zero {il : String} :
    ∀ {ps : List String},
      (∀ p ∈ ps, strIn (lowerStr p) il = false ∧
        ∀ w ∈ pyWords (lowerStr p), strIn w il = false) →
      intentScore il ps = 0 := by
  intro ps
  induction ps with
  | nil => intro _; rfl
  | cons p ps ih =>
    intro h
    have hp := h p (List.mem_cons_self _ _)
    have hps := ih fun x hx => h x (List.mem_cons_of_mem _ hx)
    rw [intentScore, patScore_zero hp.1 hp.2, hps]
    rfl

theorem foldl_pyMaxStep_zero :
    ∀ (l : List (String × ℚ)), (∀ q ∈ l, q.2 = 0) →
      l.foldl (fun acc q => pyMaxStep acc q.2) 0 = 0 := by
  intro l
  induction l with
  | nil => intro _; rfl
  | cons q l ih =>
    intro h
    have hq : q.2 = 0 := h q (List.mem_cons_self _ _)
    have hstep : pyMaxStep 0 q.2 = 0 := by
      rw [hq, pyMaxStep, if_neg (lt_irrefl (0 : ℚ))]
    rw [List.foldl_cons, hstep]
    exact ih fun x hx => h x (List.mem_cons_of_mem _ hx)

theorem maxVal_zero {s : String × ℚ} {rest : List (String × ℚ)} (hs : s.2 = 0)
    (hrest : ∀ q ∈ rest, q.2 = 0) : maxVal s rest = 0 := by
  rw [maxVal, hs]
  exact foldl_pyMaxStep_zero rest hrest

/-- C5: when no pattern phrase occurs in the input and no individual
pattern word occurs either (every score is 0), and likewise when the
intent definition set is empty, classify returns the fallback
`('greeting', 0.3)`. -/
theorem classify_no_match_fallback (intents : List Intent) (input : String) :
    ((∀ it ∈ intents, ∀ pat ∈ it.patterns,
        strIn (lowerStr pat) (lowerStr input) = false ∧
        ∀ w ∈ pyWords (lowerStr pat), strIn w (lowerStr input) = false) →
      classify intents input = ("greeting", mkRat 3 10)) ∧
    classify [] input = ("greeting", mkRat 3 10) := by
  constructor
  · intro h
    have hz : ∀ q ∈ scoresOf intents input, q.2 = 0 := by
      intro q hq
      rcases List.mem_map.mp hq with ⟨it, hit, rfl⟩
      exact intentScore_zero (h it hit)
    cases hS : scoresOf intents input with
    | nil => simp [classify, hS]
    | cons s rest =>
      have hs : s.2 = 0 := hz s (by rw [hS]; exact List.mem_cons_self _ _)
      have hrest : ∀ q ∈ rest, q.2 = 0 := fun q hq =>
        hz q (by rw [hS]; exact List.mem_cons_of_mem _ hq)
      have hm : maxVal s rest = 0 := maxVal_zero hs hrest
      simp [classify, hS, hm]
  · rfl

/-- Witness for C5: an input sharing no substring with the single pattern
falls back to `('greeting', 0.3)`. -/
theorem classify_no_match_fallback_witness :
    classify [⟨"a", ["xyz"], []⟩] "qqq" = ("greeting", mkRat 3 10) :=
  (classify_no_match_fallback [⟨"a", ["xyz"], []⟩] "qqq").1 (by decide)

/-! ## First-maximum lemmas for the classifier tie-break -/

theorem foldl_max_snd :
    ∀ (rest : List (String × ℚ)) (s : String × ℚ),
      rest.foldl (fun acc q => pyMaxStep acc q.2) s.2 =
        (rest.foldl (fun b q => if q.2 > b.2 then q else b) s).2 := by
  intro rest
  induction rest with
  | nil => intro s; rfl
  | cons q rest ih =>
    intro s
    rw [List.foldl_cons, List.foldl_cons]
    have hstep : pyMaxStep s.2 q.2 = (if q.2 > s.2 then q else s).2 := by
      by_cases hq : q.2 > s.2 <;> simp [pyMaxStep, hq]
    rw [hstep]
    exact ih (if q.2 > s.2 then q else s)

theorem maxVal_eq_pickBest (s : String × ℚ) (rest : List (String × ℚ)) :
    maxVal s rest = (pickBest s rest).2 := by
  rw [maxVal, pickBest]
  exact foldl_max_snd rest s

theorem pickBest_spec :
    ∀ (rest : List (String × ℚ)) (s : String × ℚ),
      ∃ k, k ≤ rest.length ∧ pickBest s rest = (s :: rest).getD k ("", 0) ∧
        (∀ m, m < k → ((s :: rest).getD m ("", 0)).2 < (pickBest s rest).2) ∧
        (∀ m, m ≤ rest.length → ((s :: rest).getD m ("", 0)).2 ≤ (pickBest s rest).2) := by
  intro rest
  induction rest with
  | nil =>
    intro s
    refine ⟨0, le_refl _, rfl, ?_, ?_⟩
    · intro m hm
      exact absurd hm (Nat.not_lt_zero m)
    · intro m hm
      have hm0 : m = 0 := Nat.le_zero.mp hm
      subst hm0
      exact le_refl _
  | cons q rest ih =>
    intro s
    have hstep : pickBest s (q :: rest) = pickBest (if q.2 > s.2 then q else s) rest := by
      rw [pickBest, pickBest, List.foldl_cons]
    by_cases hq : q.2 > s.2
    · rw [if_pos hq] at hstep
      rcases ih q with ⟨k, hkle, hkeq, hkstrict, hkub⟩
      refine ⟨k + 1, Nat.succ_le_succ hkle, ?_, ?_, ?_⟩
      · rw [hstep, hkeq]
        rfl
      · intro m hm
        rw [hstep]
        cases m with
        | zero =>
          have hub := hkub 0 (Nat.zero_le _)
          rw [List.getD_cons_zero] at hub ⊢
          exact lt_of_lt_of_le hq hub
        | succ m' =>
          have hm' : m' < k := Nat.lt_of_succ_lt_succ hm
          have := hkstrict m' hm'
          rw [List.getD_cons_succ]
          exact this
      · intro m hm
        rw [hstep]
        cases m with
        | zero =>
          have hub := hkub 0 (Nat.zero_le _)
          rw [List.getD_cons_zero] at hub ⊢
          exact le_of_lt (lt_of_lt_of_le hq hub)
        | succ m' =>
          have hm' : m' ≤ rest.length := Nat.le_of_succ_le_succ hm
          have := hkub m' hm'
          rw [List.getD_cons_succ]
          exact this
    · rw [if_neg hq] at hstep
      have hq' : q.2 ≤ s.2 := le_of_not_lt hq
      rcases ih s with ⟨k, hkle, hkeq, hkstrict, hkub⟩
      cases k with
      | zero =>
        refine ⟨0, Nat.zero_le _, ?_, ?_, ?_⟩
        · rw [hstep, hkeq]
          rfl
        · intro m hm
          exact absurd hm (Nat.not_lt_zero m)
        · intro m hm
          rw [hstep]
          cases m with
          | zero =>
            have := hkub 0 (Nat.zero_le _)
            rw [List.getD_cons_zero] at this ⊢
            exact this
          | succ m' =>
            cases m' with
            | zero =>
              have h0 := hkub 0 (Nat.zero_le _)
              rw [List.getD_cons_zero] at h0
              rw [List.getD_cons_succ, List.getD_cons_zero]
              exact le_trans hq' h0
            | succ m'' =>
              have hm'' : m'' + 1 ≤ rest.length := by
                have := Nat.le_of_succ_le_succ hm
                exact this
              have := hkub (m'' + 1) hm''
              rw [List.getD_cons_succ] at this
              rw [List.getD_cons_succ, List.getD_cons_succ]
              exact this
      | succ t =>
        refine ⟨t + 2, Nat.succ_le_succ hkle, ?_, ?_, ?_⟩
        · rw [hstep, hkeq]
          rfl
        · intro m hm
          rw [hstep]
          cases m with
          | zero =>
            have := hkstrict 0 (Nat.succ_pos t)
            rw [List.getD_cons_zero] at this ⊢
            exact this
          | succ m' =>
            cases m' with
            | zero =>
              have h0 := hkstrict 0 (Nat.succ_pos t)
              rw [List.getD_cons_zero] at h0
              rw [List.getD_cons_succ, List.getD_cons_zero]
              exact lt_of_le_of_lt hq' h0
            | succ m'' =>
              have hm'' : m'' + 1 < t + 1 := by
                have := Nat.lt_of_succ_lt_succ hm
                exact this
              have := hkstrict (m'' + 1) hm''
              rw [List.getD_cons_succ] at this
              rw [List.getD_cons_succ, List.getD_cons_succ]
              exact this
        · intro m hm
          rw [hstep]
          cases m with
          | zero =>
            have := hkub 0 (Nat.zero_le _)
            rw [List.getD_cons_zero] at this ⊢
            exact this
          | succ m' =>
            cases m' with
            | zero =>
              have h0 := hkub 0 (Nat.zero_le _)
              rw [List.getD_cons_zero] at h0
              rw [List.getD_cons_succ, List.getD_cons_zero]
              exact le_trans hq' h0
            | succ m'' =>
              have hm'' : m'' + 1 ≤ rest.length := Nat.le_of_succ_le_succ hm
              have := hkub (m'' + 1) hm''
              rw [List.getD_cons_succ] at this
              rw [List.getD_cons_succ, List.getD_cons_succ]
              exact this

/-- C6 counterexample: on input `zzz` the intents `a` and `b` both attain
the (zero) maximum score, yet classify returns the fallback `greeting` —
not the earliest tied intent `a` — so the claim fails when the tied
maximum is `0`. -/
theorem classify_zero_tie_counterexample :
    scoreAt [⟨"a", ["x"], []⟩, ⟨"b", ["y"], []⟩] "zzz" 0 =
      scoreAt [⟨"a", ["x"], []⟩, ⟨"b", ["y"], []⟩] "zzz" 1 ∧
    classify [⟨"a", ["x"], []⟩, ⟨"b", ["y"], []⟩] "zzz" = ("greeting", mkRat 3 10) ∧
    tagAt [⟨"a", ["x"], []⟩, ⟨"b", ["y"], []⟩] 0 = "a" ∧
    ("greeting" : String) ≠ "a" ∧ ("greeting" : String) ≠ "b" := by
  refine ⟨rfl, rfl, rfl, ?_, ?_⟩ <;> decide

/-- C6 (amended): on any input where two intents attain the equal maximum
score and that maximum is positive, classify returns the tag of the
earliest-registered intent attaining the maximum (which precedes both
tied positions).  The `Nodup` hypothesis records the data-model invariant
that tags are unique, under which the Python score dict iterates exactly
in registration order. -/
theorem classify_tie_earliest (intents : List Intent) (input : String) (i j : ℕ)
    (_hnd : (intents.map Intent.tag).Nodup)
    (hi : i < intents.length) (hj : j < intents.length) (_hij : i ≠ j)
    (hmax : ∀ m, m < intents.length → scoreAt intents input m ≤ scoreAt intents input i)
    (htie : scoreAt intents input j = scoreAt intents input i)
    (hpos : 0 < scoreAt intents input i) :
    ∃ k, k ≤ i ∧ k ≤ j ∧ k < intents.length ∧
      scoreAt intents input k = scoreAt intents input i ∧
      (∀ m, m < k → scoreAt intents input m < scoreAt intents input i) ∧
      (classify intents input).1 = tagAt intents k := by
  have hlen : (scoresOf intents input).length = intents.length := by
    rw [scoresOf, List.length_map]
  cases hS : scoresOf intents input with
  | nil =>
    rw [hS] at hlen
    simp at hlen
    exact absurd hi (by omega)
  | cons s rest =>
    have hscore : ∀ m, scoreAt intents input m = ((s :: rest).getD m ("", 0)).2 :=
      fun m => by rw [scoreAt, hS]
    rcases pickBest_spec rest s with ⟨k, hkle, hkeq, hkstrict, hkub⟩
    have hrlen : rest.length + 1 = intents.length := by
      rw [hS] at hlen
      simpa using hlen
    have hklen : k < intents.length := by omega
    have hbest2 : (pickBest s rest).2 = scoreAt intents input k := by
      rw [hkeq, hscore k]
    have hk_ge : scoreAt intents input i ≤ scoreAt intents input k := by
      have hub := hkub i (by omega)
      rw [← hscore i, hbest2] at hub
      exact hub
    have hk_eq : scoreAt intents input k = scoreAt intents input i :=
      le_antisymm (hmax k hklen) hk_ge
    have hk_le_i : k ≤ i := by
      by_contra hlt
      push_neg at hlt
      have hstr := hkstrict i hlt
      rw [← hscore i, hbest2, hk_eq] at hstr
      exact absurd hstr (lt_irrefl _)
    have hk_le_j : k ≤ j := by
      by_contra hlt
      push_neg at hlt
      have hstr := hkstrict j hlt
      rw [← hscore j, hbest2, hk_eq, htie] at hstr
      exact absurd hstr (lt_irrefl _)
    refine ⟨k, hk_le_i, hk_le_j, hklen, hk_eq, ?_, ?_⟩
    · intro m hm
      have hstr := hkstrict m hm
      rw [← hscore m, hbest2, hk_eq] at hstr
      exact hstr
    · have hm0 : ¬maxVal s rest = 0 := by
        rw [maxVal_eq_pickBest, hbest2, hk_eq]
        exact ne_of_gt hpos
      have hcls : classify intents input =
          ((pickBest s rest).1, pyMin (qDivTen (pickBest s rest).2) 1) := by
        simp [classify, hS, hm0]
      rw [hcls]
      have hbest : pickBest s rest = (scoresOf intents input).getD k ("", 0) := by
        rw [hkeq, hS]
      have hmap : (scoresOf intents input).getD k ("", 0) =
          ((intents.getD k ⟨"", [], []⟩).tag,
            intentScore (lowerStr input) (intents.getD k ⟨"", [], []⟩).patterns) := by
        rw [scoresOf]
        exact getD_map_general
          (fun it : Intent => (it.tag, intentScore (lowerStr input) it.patterns))
          intents ⟨"", [], []⟩ k
      rw [hbest, hmap, tagAt]

/-- C10: a stored `None` under a live (present, unexpired) key is returned
by `get` as the Python value `None` — indistinguishable from an absent
key — and consequently the memoization wrapper re-executes a function
whose result is `None` on every call: it reports execution (`true` flag)
and never serves that result from the cache. -/
theorem cache_none_never_served {A α : Type} (st : CacheState (Option α)) (now : Nat)
    (k : String) (mkKey : A → String) (f : A → Option α) (x : A) :
    (alookup st.cache k = some none → isExpired st now k = false →
      (lruGet st now k).map (fun p => p.1.join) = Except.ok none) ∧
    (f x = none →
      (∀ v, alookup st.cache (mkKey x) = some v → v = none) →
      ((alookup st.timestamps (mkKey x)).isSome ∨ (alookup st.cache (mkKey x)).isNone) →
      ((alookup st.cache (mkKey x)).isSome ∨ st.cache.length < st.maxSize) →
      st.cache.length ≤ st.maxSize →
      (cacheWrapper mkKey f st now x).map (fun p => (p.1, p.2.2)) =
        Except.ok (none, true)) := by
  constructor
  · intro hstored hlive
    simp [lruGet, hstored, hlive, Except.map]
  · intro hf hcons hts hroom hcap
    cases hc : alookup st.cache (mkKey x) with
    | none =>
      have hget : lruGet st now (mkKey x) = Except.ok (none, st) := by
        simp [lruGet, hc]
      have hroom' : st.cache.length < st.maxSize := by
        rcases hroom with h | h
        · rw [hc] at h
          simp at h
        · exact h
      have hput : lruPut st now (mkKey x) (none : Option α) =
          Except.ok { st with
            cache := st.cache ++ [(mkKey x, none)],
            timestamps := aerase st.timestamps (mkKey x) ++ [(mkKey x, now)] } := by
        simp [lruPut, hc, Nat.not_le.mpr hroom']
      simp [cacheWrapper, hget, hf, hput, Except.map]
    | some v =>
      have hv : v = none := hcons v hc
      subst hv
      by_cases hexp : isExpired st now (mkKey x) = true
      · have htss : (alookup st.timestamps (mkKey x)).isSome := by
          rcases hts with h | h
          · exact h
          · rw [hc] at h
            simp at h
        have hget : lruGet st now (mkKey x) =
            Except.ok (none, { st with
              cache := aerase st.cache (mkKey x),
              timestamps := aerase st.timestamps (mkKey x) }) := by
          simp [lruGet, hc, hexp, htss]
        have hc2 : alookup (aerase st.cache (mkKey x)) (mkKey x) = none :=
          alookup_aerase_self _ _
        have hlen2 : (aerase st.cache (mkKey x)).length < st.maxSize :=
          lt_of_lt_of_le (aerase_length_lt hc) hcap
        have hput : lruPut
            { st with
              cache := aerase st.cache (mkKey x),
              timestamps := aerase st.timestamps (mkKey x) } now (mkKey x)
            (none : Option α) =
            Except.ok { st with
              cache := aerase st.cache (mkKey x) ++ [(mkKey x, none)],
              timestamps := aerase (aerase st.timestamps (mkKey x)) (mkKey x) ++
                [(mkKey x, now)] } := by
          simp [lruPut, hc2, Nat.not_le.mpr hlen2]
        simp [cacheWrapper, hget, hf, hput, Except.map]
      · have hexp' : isExpired st now (mkKey x) = false := by
          simpa using hexp
        have hget : lruGet st now (mkKey x) =
            Except.ok (some none, { st with
              cache := aerase st.cache (mkKey x) ++ [(mkKey x, none)] }) := by
          simp [lruGet, hc, hexp']
        have hc2 : alookup (aerase st.cache (mkKey x) ++ [(mkKey x, (none : Option α))])
            (mkKey x) = some none := by
          rw [alookup_append_of_none (alookup_aerase_self _ _)]
          simp [alookup]
        have hput : lruPut
            { st with cache := aerase st.cache (mkKey x) ++ [(mkKey x, none)] } now
            (mkKey x) (none : Option α) =
            Except.ok { st with
              cache := aerase (aerase st.cache (mkKey x) ++ [(mkKey x, none)]) (mkKey x) ++
                [(mkKey x, none)],
              timestamps := aerase st.timestamps (mkKey x) ++ [(mkKey x, now)] } := by
          simp [lruPut, hc2]
        simp [cacheWrapper, hget, hf, hput, Except.map]

/-- Witness for C10: a two-slot cache holding `None` under live key `K`;
`get` returns the Python `None`, and the wrapper re-executes the
constantly-`None` function. -/
theorem cache_none_never_served_witness :
    ((lruGet (⟨[("K", none)], [("K", 0)], 2, 100⟩ : CacheState (Option ℕ)) 0 "K").map
        (fun p => p.1.join) = Except.ok none) ∧
    ((cacheWrapper (fun _ : Unit => "K") (fun _ => (none : Option ℕ))
        (⟨[("K", none)], [("K", 0)], 2, 100⟩ : CacheState (Option ℕ)) 0 ()).map
        (fun p => (p.1, p.2.2)) = Except.ok (none, true)) :=
  ⟨(cache_none_never_served (⟨[("K", none)], [("K", 0)], 2, 100⟩ : CacheState (Option ℕ))
      0 "K" (fun _ : Unit => "K") (fun _ => (none : Option ℕ)) ()).1 (by decide) (by decide),
   (cache_none_never_served (⟨[("K", none)], [("K", 0)], 2, 100⟩ : CacheState (Option ℕ))
      0 "K" (fun _ : Unit => "K") (fun _ => (none : Option ℕ)) ()).2 rfl
     (by intro v hv; simp [alookup] at hv; exact hv.symm)
     (by decide) (by decide) (by decide)⟩

/-! ## Dialogue-system lemmas -/

theorem str_append_ne_empty {a : String} (b : String) (h : a ≠ "") : a ++ b ≠ "" := by
  intro hc
  apply h
  have hd := congrArg String.data hc
  rw [String.data_append] at hd
  have hda : a.data = [] := (List.append_eq_nil.mp hd).1
  cases a with
  | mk d =>
    cases hda
    rfl

theorem handleTrackOrder_ne_empty (st : DSState) (input : String) :
    handleTrackOrder st input ≠ "" := by
  rw [handleTrackOrder]
  split
  · split
    · exact str_append_ne_empty _ (str_append_ne_empty _ (str_append_ne_empty _
        (str_append_ne_empty _
          (str_append_ne_empty _ (by decide : ("Your order " : String) ≠ "")))))
    · exact (by decide :
        ("I couldn\x27t find your order. Please provide your order ID." : String) ≠ "")
  · exact (by decide :
      ("I couldn\x27t find your order. Please provide your order ID." : String) ≠ "")

theorem handleCancelItem_ne_empty (st : DSState) (input : String) :
    (handleCancelItem st input).1 ≠ "" := by
  rw [handleCancelItem]
  split
  · split
    · split_ifs
      · exact str_append_ne_empty _ (str_append_ne_empty _
          (by decide : ("Order " : String) ≠ ""))
      · exact (by decide :
          ("Unable to cancel this order. It may have already shipped." : String) ≠ "")
    · exact (by decide :
        ("Unable to cancel this order. It may have already shipped." : String) ≠ "")
  · exact (by decide :
      ("Unable to cancel this order. It may have already shipped." : String) ≠ "")

theorem respLookup_mem {intents : List Intent} {tag : String} {rs : List String}
    (hl : respLookup intents tag = some rs) : ∃ it ∈ intents, rs = it.responses := by
  have h1 := alookup_mem hl
  rw [List.mem_reverse] at h1
  rcases List.mem_map.mp h1 with ⟨it, hit, heq⟩
  refine ⟨it, hit, ?_⟩
  have := congrArg Prod.snd heq
  exact this.symm

theorem generate_mem {intents : List Intent} (pick : List String → ℕ) {tag : String}
    {rs : List String} (hl : respLookup intents tag = some rs) (hne : rs ≠ []) :
    ∃ r, generate intents pick tag [] = some r ∧ r ∈ rs := by
  cases rs with
  | nil => exact absurd rfl hne
  | cons a l =>
    have hlt : pick (a :: l) % (a :: l).length < (a :: l).length :=
      Nat.mod_lt _ (by simp)
    refine ⟨(a :: l).getD (pick (a :: l) % (a :: l).length) "", ?_, getD_mem_of_lt _ hlt⟩
    simp [generate, hl]

theorem generate_total (intents : List Intent) (pick : List String → ℕ) (tag : String)
    (hresp : ∀ it ∈ intents, it.responses ≠ [] ∧ ∀ t ∈ it.responses, t ≠ "") :
    ∃ r, generate intents pick tag [] = some r ∧ r ≠ "" := by
  cases hl : respLookup intents tag with
  | none =>
    refine ⟨"I\x27m sorry, I didn\x27t understand that. Can you please rephrase?", ?_, ?_⟩
    · simp [generate, hl]
    · decide
  | some rs =>
    rcases respLookup_mem hl with ⟨it, hit, rfl⟩
    obtain ⟨r, hgen, hmem⟩ := generate_mem pick hl (hresp it hit).1
    exact ⟨r, hgen, (hresp it hit).2 r hmem⟩

theorem fallbackResp_total (cfg : DSConfig) (input : String)
    (hresp : ∀ it ∈ cfg.intents, it.responses ≠ [] ∧ ∀ t ∈ it.responses, t ≠ "")
    (hans : ∀ p ∈ cfg.corpus, p.2 ≠ "")
    (hlen : (cfg.simsOf input).length = cfg.corpus.length) :
    ∃ r, fallbackResp cfg input = some r ∧ r ≠ "" := by
  rw [fallbackResp]
  cases hr : retrieve cfg.corpus (cfg.simsOf input) 1 with
  | nil => exact generate_total cfg.intents cfg.pick "default" hresp
  | cons h t =>
    have hmemh : h ∈ retrieve cfg.corpus (cfg.simsOf input) 1 := by
      rw [hr]
      exact List.mem_cons_self h t
    rcases List.mem_map.mp hmemh with ⟨i, hi, hfi⟩
    have hilt : i < cfg.corpus.length := hlen ▸ retrieveIdxs_lt_length hi
    have hmem2 : cfg.corpus.getD i ("", "") ∈ cfg.corpus := getD_mem_of_lt _ hilt
    refine ⟨h.answer, rfl, ?_⟩
    rw [← hfi]
    exact hans _ hmem2

theorem handleIntent_total (cfg : DSConfig) (st : DSState) (tag input : String)
    (hresp : ∀ it ∈ cfg.intents, it.responses ≠ [] ∧ ∀ t ∈ it.responses, t ≠ "")
    (hans : ∀ p ∈ cfg.corpus, p.2 ≠ "")
    (hlen : (cfg.simsOf input).length = cfg.corpus.length) :
    ∃ r st2, handleIntent cfg st tag input = some (r, st2) ∧ r ≠ "" := by
  rw [handleIntent]
  split_ifs with h1 h2 h3
  · exact ⟨_, _, rfl, handleTrackOrder_ne_empty st input⟩
  · exact ⟨(handleCancelItem st input).1, (handleCancelItem st input).2, rfl,
      handleCancelItem_ne_empty st input⟩
  · obtain ⟨r, hgen, hne⟩ := generate_total cfg.intents cfg.pick "greeting" hresp
    exact ⟨r, st, by rw [hgen]; rfl, hne⟩
  · obtain ⟨r, hfb, hne⟩ := fallbackResp_total cfg input hresp hans hlen
    exact ⟨r, st, by rw [hfb]; rfl, hne⟩

theorem handleIntent_frame (cfg : DSConfig) (st : DSState) (tag input : String)
    {r : String} {st2 : DSState} (h : handleIntent cfg st tag input = some (r, st2)) :
    st2.history = st.history ∧ st2.context = st.context := by
  rw [handleIntent] at h
  split_ifs at h
  · injection h with h'
    injection h' with h1 h2
    subst h2
    exact ⟨rfl, rfl⟩
  · injection h with h'
    rw [handleCancelItem] at h'
    split at h'
    · split at h'
      · split_ifs at h'
        · injection h' with h1 h2
          subst h2
          exact ⟨rfl, rfl⟩
        · injection h' with h1 h2
          subst h2
          exact ⟨rfl, rfl⟩
      · injection h' with h1 h2
        subst h2
        exact ⟨rfl, rfl⟩
    · injection h' with h1 h2
      subst h2
      exact ⟨rfl, rfl⟩
  · rcases Option.map_eq_some'.mp h with ⟨a, _, hpair⟩
    have hpair2 : (a, st) = (r, st2) := hpair
    injection hpair2 with h1 h2
    subst h2
    exact ⟨rfl, rfl⟩
  · rcases Option.map_eq_some'.mp h with ⟨a, _, hpair⟩
    have hpair2 : (a, st) = (r, st2) := hpair
    injection hpair2 with h1 h2
    subst h2
    exact ⟨rfl, rfl⟩

/-- C2 counterexample: the intent `refund` has the registered template set
`["R1"]` and is classified from the input, yet `process_input` answers
with the retriever's hit `A1`, which is not one of the intent's
templates. -/
theorem template_intent_routed_to_retriever_counterexample :
    classify cfgC2.intents "refund" = ("refund", mkRat 1 5) ∧
    respLookup cfgC2.intents "refund" = some ["R1"] ∧
    (processInput cfgC2 ⟨[], [], []⟩ "refund").map Prod.fst = some "A1" ∧
    ("A1" ∈ ["R1"] → False) := by
  refine ⟨rfl, rfl, rfl, ?_⟩
  decide

/-- C2 (amended): only the literal intent `greeting` is answered from its
template set; any other classified intent besides `track_order` and
`cancel_item` — whether or not it has registered templates — is answered
by the retriever's top hit, or by the `default` template when no hit
clears the threshold. -/
theorem nongreeting_intents_bypass_templates (cfg : DSConfig) (st : DSState)
    (input tag : String) (conf : ℚ)
    (hclass : classify cfg.intents input = (tag, conf)) :
    (tag ≠ "track_order" → tag ≠ "cancel_item" → tag ≠ "greeting" →
      (processInput cfg st input).map Prod.fst = fallbackResp cfg input) ∧
    (tag = "greeting" →
      ∀ rs, respLookup cfg.intents "greeting" = some rs → rs ≠ [] →
        ∃ r st2, processInput cfg st input = some (r, st2) ∧ r ∈ rs) := by
  constructor
  · intro h1 h2 h3
    simp only [processInput]
    rw [hclass]
    simp only [handleIntent]
    rw [if_neg h1, if_neg h2, if_neg h3]
    cases hf : fallbackResp cfg input with
    | none => simp [hf]
    | some r => simp [hf]
  · intro hg rs hl hne
    subst hg
    obtain ⟨r, hgen, hmem⟩ := generate_mem cfg.pick hl hne
    have hrun : processInput cfg st input = some (r,
        { st with history := (st.history ++ [⟨cfg.time, "user", input, none, none⟩]) ++
            [⟨cfg.time, "assistant", r, some "greeting", some conf⟩] }) := by
      simp only [processInput]
      rw [hclass]
      simp only [handleIntent]
      rw [if_neg (by decide : ¬("greeting" : String) = "track_order"),
        if_neg (by decide : ¬("greeting" : String) = "cancel_item"),
        if_pos trivial, hgen]
      rfl
    exact ⟨r, _, hrun, hmem⟩

/-- Witness for C2 (amended): the `refund` input of the counterexample
follows the retriever path, and a `greeting` input is answered from the
greeting template set. -/
theorem nongreeting_intents_bypass_templates_witness :
    ((processInput cfgC2 ⟨[], [], []⟩ "refund").map Prod.fst =
      fallbackResp cfgC2 "refund") ∧
    (∃ r st2, processInput cfgC9 ⟨[], [], []⟩ "hello" = some (r, st2) ∧
      r ∈ ["Hi there!"]) :=
  ⟨(nongreeting_intents_bypass_templates cfgC2 ⟨[], [], []⟩ "refund" "refund"
      (mkRat 1 5) rfl).1 (by decide) (by decide) (by decide),
   (nongreeting_intents_bypass_templates cfgC9 ⟨[], [], []⟩ "hello" "greeting"
      (mkRat 1 5) rfl).2 rfl ["Hi there!"] rfl (by decide)⟩

/-- C9: one `process_input` call returns a non-empty response and appends
exactly two history entries — first the user turn, then an assistant turn
carrying the chosen intent and confidence — leaving all earlier history
entries and the session context unchanged.  The hypotheses record the
data-file invariants (registered template lists are non-empty and hold
non-empty templates; corpus answers are non-empty) and the vectorizer
contract (one similarity per corpus document). -/
theorem process_input_appends_two_turns (cfg : DSConfig) (st : DSState) (input : String)
    (hresp : ∀ it ∈ cfg.intents, it.responses ≠ [] ∧ ∀ t ∈ it.responses, t ≠ "")
    (hans : ∀ p ∈ cfg.corpus, p.2 ≠ "")
    (hlen : (cfg.simsOf input).length = cfg.corpus.length) :
    ∃ r st2, processInput cfg st input = some (r, st2) ∧ r ≠ "" ∧
      st2.history = st.history ++
        [⟨cfg.time, "user", input, none, none⟩,
         ⟨cfg.time, "assistant", r, some (classify cfg.intents input).1,
          some (classify cfg.intents input).2⟩] ∧
      st2.context = st.context := by
  obtain ⟨r, st2, hh, hne⟩ := handleIntent_total cfg
    { st with history := st.history ++ [⟨cfg.time, "user", input, none, none⟩] }
    (classify cfg.intents input).1 input hresp hans hlen
  obtain ⟨hhist, hctx⟩ := handleIntent_frame _ _ _ _ hh
  refine ⟨r,
    { st2 with
      history := st2.history ++
        [⟨cfg.time, "assistant", r, some (classify cfg.intents input).1,
          some (classify cfg.intents input).2⟩] }, ?_, hne, ?_, ?_⟩
  · simp only [processInput]
    rw [hh]
  · simp only []
    rw [hhist]
    simp [List.append_assoc]
  · exact hctx.trans rfl

/-- Witness for C9: the greeting system answers `hello` with a non-empty
template and appends exactly the user turn and the assistant turn. -/
theorem process_input_appends_two_turns_witness :
    ∃ r st2, processInput cfgC9 ⟨[], [], []⟩ "hello" = some (r, st2) ∧ r ≠ "" ∧
      st2.history = ([] : List Turn) ++
        [⟨cfgC9.time, "user", "hello", none, none⟩,
         ⟨cfgC9.time, "assistant", r, some (classify cfgC9.intents "hello").1,
          some (classify cfgC9.intents "hello").2⟩] ∧
      st2.context = ([] : List (String × String)) :=
  process_input_appends_two_turns cfgC9 ⟨[], [], []⟩ "hello" (by decide) (by decide) rfl

/-- Witness for C6 (amended): two intents tie with score `2 > 0` on input
`hello`; the earliest (`a`, position 0) is chosen. -/
theorem classify_tie_earliest_witness :
    ∃ k, k ≤ 0 ∧ k ≤ 1 ∧ k < ([⟨"a", ["hello"], []⟩, ⟨"b", ["hello"], []⟩] : List Intent).length ∧
      scoreAt [⟨"a", ["hello"], []⟩, ⟨"b", ["hello"], []⟩] "hello" k =
        scoreAt [⟨"a", ["hello"], []⟩, ⟨"b", ["hello"], []⟩] "hello" 0 ∧
      (∀ m, m < k →
        scoreAt [⟨"a", ["hello"], []⟩, ⟨"b", ["hello"], []⟩] "hello" m <
          scoreAt [⟨"a", ["hello"], []⟩, ⟨"b", ["hello"], []⟩] "hello" 0) ∧
      (classify [⟨"a", ["hello"], []⟩, ⟨"b", ["hello"], []⟩] "hello").1 =
        tagAt [⟨"a", ["hello"], []⟩, ⟨"b", ["hello"], []⟩] k :=
  classify_tie_earliest [⟨"a", ["hello"], []⟩, ⟨"b", ["hello"], []⟩] "hello" 0 1
    (by decide) (by decide) (by decide) (by decide) (by decide) (by decide) (by decide)

end Chatbot
